import Mathlib

/-!
Verification of the Voice-Activity & Pause Analysis engine
(`app/speech.py` of BackendMentalHelp).

The engine is shallowly embedded over exact rationals:

* `frame_len`, `reshape`, `rms_flags` model the frame segmenter and
  classifier `rms_flags(y, sr, frame_ms, thresh_scale)`;
* `median`, `classify` model the adaptive-threshold classification
  (`np.median`, `max(1e-12, median * scale)`, strict `rms > thr`);
* `collectPauses` models the run-length loop of `analyze` that collects
  silence runs into `pauses`;
* `mean_pause`, `long_pause_pct`, `pause_density`, `pyRound1` model the
  metric aggregation lines of `analyze`;
* `analyze` models the endpoint after audio decoding: decoding itself
  (soundfile, temporary files) is an external collaborator, so the model
  receives the decoded mono sample list (`none` standing for a null
  decode result) and the sample rate.

Python's `int()` applied to a nonnegative float quotient is modelled by
truncating division (`Int.tdiv`, `Nat` division); float arithmetic is
modelled by exact rational arithmetic.  The per-frame RMS energy
`sqrt(mean(frame ** 2))` is irrational in general, so the pipeline is
parametric in the frame-energy function `energy : List ℚ → ℚ`: every
theorem below holds for an arbitrary energy function, hence in
particular for the RMS energy.
-/

namespace Speech

/-- The tiny positive floor `1e-12` used for the threshold in `rms_flags`. -/
def epsFloor : ℚ := 1 / 1000000000000

/-- Frame length in samples: `frame_len = max(1, int(sr * frame_ms / 1000))`.
`int()` truncates the float quotient toward zero, which `Int.tdiv` models. -/
def frame_len (sr frame_ms : ℤ) : ℕ := (max 1 (Int.tdiv (sr * frame_ms) 1000)).toNat

/-- `reshape n k l` models `y[: n * k].reshape(n, k)`: the first `n`
consecutive chunks of `k` samples each. -/
def reshape (n k : ℕ) (l : List ℚ) : List (List ℚ) :=
  match n with
  | 0 => []
  | m + 1 => l.take k :: reshape m k (l.drop k)

/-- `np.median` of a list of rationals: sort, take the middle element for
odd length, the average of the two middle elements for even length.
(The value at the empty list is irrelevant: `rms_flags` only calls it on
a nonempty energy list.) -/
def median (l : List ℚ) : ℚ :=
  let s := List.insertionSort (· ≤ ·) l
  let n := l.length
  if n % 2 = 1 then s.getD (n / 2) 0
  else if n = 0 then 0
  else (s.getD (n / 2 - 1) 0 + s.getD (n / 2) 0) / 2

/-- The threshold classifier: `thr = max(1e-12, median(rms) * scale)` and
per-frame label `rms > thr` (strict). -/
def classify (energies : List ℚ) (scale : ℚ) : List Bool :=
  let thr := max epsFloor (median energies * scale)
  energies.map (fun e => decide (thr < e))

/-- `rms_flags` of `app/speech.py`, parametric in the frame-energy
function: segment into `len(y) // frame_len` frames (empty result when
that is zero), compute each frame's energy, classify against the single
clip-global threshold. -/
def rms_flags (energy : List ℚ → ℚ) (y : List ℚ) (sr frame_ms : ℤ) (scale : ℚ) :
    List Bool :=
  let fl := frame_len sr frame_ms
  let n := y.length / fl
  if n = 0 then []
  else classify ((reshape n fl (y.take (n * fl))).map energy) scale

/-- The body of the silence-collection loop of `analyze`: `prev` is the
previous frame's label, `run` the current run length.  On a label change
a just-finished silence run is emitted as `run * frame_ms`; after the
scan a final silence run is emitted as well. -/
def pausesGo (frame_ms : ℕ) (prev : Bool) (run : ℕ) : List Bool → List ℕ
  | [] => if prev then [] else [run * frame_ms]
  | f :: rest =>
    if f = prev then pausesGo frame_ms f (run + 1) rest
    else if prev then pausesGo frame_ms f 1 rest
    else run * frame_ms :: pausesGo frame_ms f 1 rest

/-- The silence-collection loop of `analyze`: starting run length 1 at the
first frame, scanning the remaining frames.  (The source fixes
`frame_ms = 30` at both call sites; the model keeps it a parameter.) -/
def collectPauses (frame_ms : ℕ) : List Bool → List ℕ
  | [] => []
  | f :: rest => pausesGo frame_ms f 1 rest

/-- Lengths of the maximal runs of `false` (silence) in a label list,
written directly from the specification's description of pause segments:
each pause is a maximal run of consecutive silence frames. -/
def falseRuns : List Bool → List ℕ
  | [] => []
  | true :: l => falseRuns l
  | false :: l =>
      ((l.takeWhile (fun b => !b)).length + 1) :: falseRuns (l.dropWhile (fun b => !b))
termination_by l => l.length
decreasing_by
  · simp only [List.length_cons]
    omega
  · simp only [List.length_cons]
    exact Nat.lt_succ_of_le (List.Sublist.length_le (List.dropWhile_sublist _))

/-- `mean_pause = float(np.mean(pauses)) if pauses else 0.0` followed by
`int(mean_pause)`: the truncated (floor, since durations are
nonnegative) arithmetic mean, `0` for the empty list. -/
def mean_pause (pauses : List ℕ) : ℕ :=
  if pauses.isEmpty then 0 else pauses.sum / pauses.length

/-- `long_pause_pct = int(100 * sum(p > 700 for p in pauses) / max(1, len(pauses)))`:
truncating division models `int()` of the nonnegative float quotient. -/
def long_pause_pct (pauses : List ℕ) : ℕ :=
  (100 * pauses.countP (fun p => decide (700 < p))) / max 1 pauses.length

/-- `pause_density = 60000.0 * len(pauses) / max(1, total_ms) if total_ms else 0.0`. -/
def pause_density (numPauses total_ms : ℕ) : ℚ :=
  if total_ms = 0 then 0 else (60000 * numPauses : ℚ) / max 1 (total_ms : ℚ)

/-- Python `round(x, 1)` modelled as round-half-up to one decimal place
via the computable `Rat.floor`.  (CPython rounds exact ties to even; no
verified behaviour depends on a tie.) -/
def pyRound1 (q : ℚ) : ℚ := ((Rat.floor (10 * q + 1 / 2) : ℤ) : ℚ) / 10

/-- The fixed advisory string of the response. -/
def fluencyHintText : String :=
  "Aim for shorter and more even pauses; practice with 1-2 short sentences and gradually extend."

/-- The fixed disclaimer string of the response. -/
def disclaimerText : String :=
  "For educational purposes only, not for medical diagnosis."

/-- The JSON object returned by `analyze` on success. -/
structure AnalysisResult where
  duration_s : ℚ
  pause_density_per_min : ℚ
  mean_pause_ms : ℕ
  long_pause_pct : ℕ
  fluency_hint : String
  disclaimer : String
  deriving DecidableEq

/-- Lines 38-65 of `app/speech.py`: from the label list, `total_ms`, the
collected pauses and the aggregated response object. -/
def metricsOf (flags : List Bool) : AnalysisResult :=
  let total_ms := flags.length * 30
  let pauses := collectPauses 30 flags
  { duration_s := pyRound1 ((total_ms : ℚ) / 1000)
    pause_density_per_min := pyRound1 (pause_density pauses.length total_ms)
    mean_pause_ms := mean_pause pauses
    long_pause_pct := long_pause_pct pauses
    fluency_hint := fluencyHintText
    disclaimer := disclaimerText }

/-- The `analyze` endpoint after decoding: `none` models a null decode
result, `some []` an empty sample sequence; both hit the
`HTTPException(400, "Empty audio")` guard before segmentation.
Otherwise the sample list is segmented, classified, run-length analysed
and aggregated exactly as in the source (with `frame_ms = 30`,
`thresh_scale = 0.6`). -/
def analyze (energy : List ℚ → ℚ) (input : Option (List ℚ)) (sr : ℤ) :
    Except String AnalysisResult :=
  match input with
  | none => .error "Empty audio"
  | some y =>
    if y.length = 0 then .error "Empty audio"
    else .ok (metricsOf (rms_flags energy y sr 30 (3 / 5)))

/-- The zeroed result produced for a clip shorter than one frame. -/
def emptyResult : AnalysisResult :=
  { duration_s := 0
    pause_density_per_min := 0
    mean_pause_ms := 0
    long_pause_pct := 0
    fluency_hint := fluencyHintText
    disclaimer := disclaimerText }

/-! ### Basic lemmas about the embedding -/

/-- The computable `Rat.floor` agrees with the floor of the ordered field ℚ. -/
theorem ratFloor_eq_floor (q : ℚ) : Rat.floor q = ⌊q⌋ :=
  (Rat.floor_def' q).trans Rat.floor_def.symm

/-- `pyRound1` in terms of the mathematical floor. -/
theorem pyRound1_eq (q : ℚ) : pyRound1 q = ((⌊10 * q + 1 / 2⌋ : ℤ) : ℚ) / 10 := by
  rw [pyRound1, ratFloor_eq_floor]

/-- Rounding zero to one decimal place gives zero. -/
theorem pyRound1_zero : pyRound1 0 = 0 := by
  rw [pyRound1_eq]
  norm_num

/-- `reshape n k l` always produces exactly `n` frames. -/
theorem reshape_length (n k : ℕ) (l : List ℚ) : (reshape n k l).length = n := by
  induction n generalizing l with
  | zero => rfl
  | succ m ih => simp [reshape, ih]

/-- The classifier labels every frame: one output per input energy. -/
theorem classify_length (energies : List ℚ) (scale : ℚ) :
    (classify energies scale).length = energies.length := by
  simp [classify]

/-- The clamped frame length is always at least one sample. -/
theorem frame_len_pos (sr frame_ms : ℤ) : 0 < frame_len sr frame_ms := by
  have h1 : (1 : ℤ) ≤ max 1 (Int.tdiv (sr * frame_ms) 1000) := le_max_left _ _
  have h2 : ((1 : ℤ)).toNat ≤ (max 1 (Int.tdiv (sr * frame_ms) 1000)).toNat :=
    Int.toNat_le_toNat h1
  simp only [frame_len]
  omega

/-- `rms_flags` produces exactly `len(y) // frame_len` labels. -/
theorem rms_flags_length (energy : List ℚ → ℚ) (y : List ℚ) (sr frame_ms : ℤ)
    (scale : ℚ) :
    (rms_flags energy y sr frame_ms scale).length = y.length / frame_len sr frame_ms := by
  by_cases h : y.length / frame_len sr frame_ms = 0
  · simp [rms_flags, h]
  · simp [rms_flags, h, classify_length, reshape_length]

/-- On a clip with zero frames the label list is empty. -/
theorem rms_flags_eq_nil (energy : List ℚ → ℚ) (y : List ℚ) (sr frame_ms : ℤ)
    (scale : ℚ) (h : y.length / frame_len sr frame_ms = 0) :
    rms_flags energy y sr frame_ms scale = [] := by
  simp [rms_flags, h]

/-- Aggregating an empty label list yields the all-zero result. -/
theorem metricsOf_nil : metricsOf [] = emptyResult := by
  simp only [metricsOf, collectPauses, emptyResult, List.length_nil, Nat.zero_mul,
    mean_pause, long_pause_pct, pause_density, List.isEmpty_nil, List.countP_nil]
  norm_num [pyRound1_zero]

/-- Any nonempty clip shorter than one frame analyses to the zero result. -/
theorem analyze_short (energy : List ℚ → ℚ) (y : List ℚ) (sr : ℤ)
    (h1 : y.length ≠ 0) (h2 : y.length < frame_len sr 30) :
    analyze energy (some y) sr = .ok emptyResult := by
  have hz : y.length / frame_len sr 30 = 0 := Nat.div_eq_of_lt h2
  simp [analyze, h1, rms_flags_eq_nil energy y sr 30 (3 / 5) hz, metricsOf_nil]

/-- A concrete evaluation: one sample at 16 kHz is shorter than one 30 ms
frame, so the analysis returns the zero result. -/
theorem analyze_single_sample :
    analyze (fun _ => 1) (some [1]) 16000 = .ok emptyResult :=
  analyze_short (fun _ => 1) [1] 16000 (by decide) (by decide)

/-! ### The run-length analyzer -/

/-- Behaviour of the scanning loop, by the label of the run in progress:
scanning with a speech run in progress emits exactly the silence runs of
the remainder; scanning with a silence run of length `run` in progress
first emits that run extended by the leading silence of the remainder,
then the silence runs of what is left. -/
theorem pausesGo_falseRuns (fm : ℕ) (l : List Bool) :
    (∀ run : ℕ, pausesGo fm true run l = (falseRuns l).map (fun r => r * fm)) ∧
    (∀ run : ℕ, pausesGo fm false run l =
      (run + (l.takeWhile (fun b => !b)).length) * fm ::
        (falseRuns (l.dropWhile (fun b => !b))).map (fun r => r * fm)) := by
  induction l with
  | nil =>
    refine ⟨fun run => by simp [pausesGo, falseRuns], fun run => by simp [pausesGo, falseRuns]⟩
  | cons f rest ih =>
    obtain ⟨ihT, ihF⟩ := ih
    constructor
    · intro run
      cases f with
      | true =>
        have hstep : pausesGo fm true run (true :: rest) = pausesGo fm true (run + 1) rest := by
          simp [pausesGo]
        rw [hstep, ihT (run + 1), show falseRuns (true :: rest) = falseRuns rest from by
          rw [falseRuns]]
      | false =>
        have hstep : pausesGo fm true run (false :: rest) = pausesGo fm false 1 rest := by
          simp [pausesGo]
        rw [hstep, ihF 1, show falseRuns (false :: rest) =
          ((rest.takeWhile (fun b => !b)).length + 1) ::
            falseRuns (rest.dropWhile (fun b => !b)) from by rw [falseRuns]]
        simp [Nat.add_comm]
    · intro run
      cases f with
      | false =>
        have hstep : pausesGo fm false run (false :: rest) = pausesGo fm false (run + 1) rest := by
          simp [pausesGo]
        rw [hstep, ihF (run + 1)]
        simp only [List.takeWhile_cons, List.dropWhile_cons, Bool.not_false, if_true,
          List.length_cons]
        congr 1
        ring
      | true =>
        have hstep : pausesGo fm false run (true :: rest) =
            run * fm :: pausesGo fm true 1 rest := by
          simp [pausesGo]
        rw [hstep, ihT 1]
        simp [show falseRuns (true :: rest) = falseRuns rest from by rw [falseRuns]]

/-- The silence-collection loop emits exactly one pause per maximal run of
silence frames, each of duration run length times `frame_ms`. -/
theorem collectPauses_falseRuns (fm : ℕ) (flags : List Bool) :
    collectPauses fm flags = (falseRuns flags).map (fun r => r * fm) := by
  cases flags with
  | nil => simp [collectPauses, falseRuns]
  | cons f rest =>
    cases f with
    | true =>
      have h := (pausesGo_falseRuns fm rest).1 1
      rw [show collectPauses fm (true :: rest) = pausesGo fm true 1 rest from rfl, h,
        show falseRuns (true :: rest) = falseRuns rest from by rw [falseRuns]]
    | false =>
      have h := (pausesGo_falseRuns fm rest).2 1
      rw [show collectPauses fm (false :: rest) = pausesGo fm false 1 rest from rfl, h,
        show falseRuns (false :: rest) =
          ((rest.takeWhile (fun b => !b)).length + 1) ::
            falseRuns (rest.dropWhile (fun b => !b)) from by rw [falseRuns]]
      simp [Nat.add_comm]

/-- The total length of the maximal silence runs never exceeds the frame count. -/
theorem falseRuns_sum_le : ∀ l : List Bool, (falseRuns l).sum ≤ l.length
  | [] => by simp [falseRuns]
  | true :: rest => by
    have ih := falseRuns_sum_le rest
    rw [show falseRuns (true :: rest) = falseRuns rest from by rw [falseRuns]]
    simp only [List.length_cons]
    omega
  | false :: rest => by
    have ih := falseRuns_sum_le (rest.dropWhile (fun b => !b))
    have hsplit : (rest.takeWhile (fun b => !b)).length +
        (rest.dropWhile (fun b => !b)).length = rest.length := by
      rw [← List.length_append, List.takeWhile_append_dropWhile]
    rw [show falseRuns (false :: rest) =
      ((rest.takeWhile (fun b => !b)).length + 1) ::
        falseRuns (rest.dropWhile (fun b => !b)) from by rw [falseRuns]]
    simp only [List.sum_cons, List.length_cons]
    omega
termination_by l => l.length
decreasing_by
  · simp only [List.length_cons]
    omega
  · simp only [List.length_cons]
    exact Nat.lt_succ_of_le (List.Sublist.length_le (List.dropWhile_sublist _))

/-- There are no silence runs exactly when no frame is silent. -/
theorem falseRuns_eq_nil : ∀ l : List Bool, (falseRuns l = [] ↔ false ∉ l)
  | [] => by simp [falseRuns]
  | true :: rest => by
    have ih := falseRuns_eq_nil rest
    rw [show falseRuns (true :: rest) = falseRuns rest from by rw [falseRuns]]
    simp [ih]
  | false :: rest => by
    rw [show falseRuns (false :: rest) =
      ((rest.takeWhile (fun b => !b)).length + 1) ::
        falseRuns (rest.dropWhile (fun b => !b)) from by rw [falseRuns]]
    simp
termination_by l => l.length
decreasing_by
  · simp only [List.length_cons]
    omega

/-- Summing a list multiplied elementwise by a constant. -/
theorem sum_map_mul_const (l : List ℕ) (c : ℕ) :
    (l.map (fun r => r * c)).sum = l.sum * c := by
  induction l with
  | nil => simp
  | cons x rest ih => simp [ih, Nat.add_mul]

/-! ### Claim C1: frame segmentation -/

/-- C1 (counterexample): at sample rate 1190 and frame duration 30 ms the
stated formula `max(1, round(sample_rate * frame_ms / 1000))` gives frame
length 36 (35.7 rounds to 36), predicting `35 / 36 = 0` frames for a
35-sample clip, but the segmenter (which truncates with `int()`) uses
frame length 35 and produces 1 frame. -/
theorem c1_counterexample :
    ¬ ((rms_flags (fun _ => 1) (List.replicate 35 1) 1190 30 (3 / 5)).length =
        35 / (max 1 (round ((1190 * 30 : ℚ) / 1000))).toNat) := by
  have h1 : (rms_flags (fun _ => 1) (List.replicate 35 (1 : ℚ)) 1190 30 (3 / 5)).length = 1 := by
    decide
  have h2 : round ((1190 * 30 : ℚ) / 1000) = 36 := by norm_num [round_eq]
  rw [h1, h2]
  decide

/-- C1 (amended): for every sample sequence, sample rate and frame
duration, the frame segmenter computes
`frame_length = max(1, trunc(sample_rate * frame_ms / 1000))` — truncating
the quotient (the floor, for the nonnegative products of valid inputs),
not rounding to nearest — and produces exactly
`frame_count = floor(sample_count / frame_length)` frames, discarding the
tail remainder; when the frame count is zero it returns an empty frame
sequence rather than an error. -/
theorem c1_frame_segmentation (energy : List ℚ → ℚ) (y : List ℚ) (sr frame_ms : ℤ)
    (scale : ℚ) (h : 0 ≤ sr * frame_ms) :
    (frame_len sr frame_ms : ℤ) = max 1 ⌊((sr * frame_ms : ℤ) : ℚ) / (1000 : ℚ)⌋ ∧
    (rms_flags energy y sr frame_ms scale).length = y.length / frame_len sr frame_ms ∧
    (y.length / frame_len sr frame_ms = 0 →
      rms_flags energy y sr frame_ms scale = []) := by
  refine ⟨?_, rms_flags_length energy y sr frame_ms scale,
    fun hz => rms_flags_eq_nil energy y sr frame_ms scale hz⟩
  have hfl : ⌊((sr * frame_ms : ℤ) : ℚ) / (1000 : ℚ)⌋ = (sr * frame_ms) / 1000 := by
    have h1000 : ((1000 : ℕ) : ℚ) = (1000 : ℚ) := by norm_num
    have := Rat.floor_intCast_div_natCast (sr * frame_ms) 1000
    rw [h1000] at this
    simpa using this
  rw [hfl]
  simp only [frame_len]
  rw [Int.tdiv_eq_ediv h (by norm_num)]
  have hnn : (0 : ℤ) ≤ max 1 (sr * frame_ms / 1000) :=
    le_trans zero_le_one (le_max_left _ _)
  rw [Int.toNat_of_nonneg hnn]

/-- C1 (witness): the amended claim instantiated at 16 kHz sample rate,
30 ms frames, a one-sample clip and the default scale. -/
theorem c1_witness :
    (frame_len 16000 30 : ℤ) = max 1 ⌊((16000 * 30 : ℤ) : ℚ) / (1000 : ℚ)⌋ :=
  (c1_frame_segmentation (fun _ => 1) [1] 16000 30 (3 / 5) (by norm_num)).1

/-! ### Claim C2: run-length analysis -/

/-- C2: the run-length analyzer emits exactly one pause per maximal run of
consecutive silence frames, of duration run length times `frame_ms`
(`falseRuns` lists the maximal silence-run lengths left to right,
including runs touching the start or the end of the clip, a final
silence run being emitted after the scan); the output is empty exactly
when no silence frame occurs, in particular for zero frames. -/
theorem c2_run_length (frame_ms : ℕ) (flags : List Bool) :
    collectPauses frame_ms flags = (falseRuns flags).map (fun r => r * frame_ms) ∧
    (collectPauses frame_ms flags = [] ↔ false ∉ flags) := by
  refine ⟨collectPauses_falseRuns frame_ms flags, ?_⟩
  rw [collectPauses_falseRuns frame_ms flags, List.map_eq_nil_iff]
  exact falseRuns_eq_nil flags

/-! ### Claim C3: long-pause percentage formula -/

/-- C3 (counterexample): for the pause list `[800, 800, 100]` the code
computes `int(100 * 2 / 3) = 66`, but the stated formula
`round(100 * 2 / 3) = 67`. -/
theorem c3_counterexample :
    ¬ ((long_pause_pct [800, 800, 100] : ℤ) =
        round ((100 * (([800, 800, 100] : List ℕ).countP (fun p => decide (700 < p)) : ℚ)) /
          ((max 1 ([800, 800, 100] : List ℕ).length : ℕ) : ℚ))) := by
  have h1 : long_pause_pct [800, 800, 100] = 66 := by decide
  have h2 : ([800, 800, 100] : List ℕ).countP (fun p => decide (700 < p)) = 2 := by decide
  have h3 : max 1 ([800, 800, 100] : List ℕ).length = 3 := by decide
  rw [h1, h2, h3]
  norm_num [round_eq]

/-- C3 (amended): for every pause-duration sequence, `long_pause_pct`
equals `floor(100 * count(p > 700 for p in pauses) / max(1, len(pauses)))`
— `int()` truncates the nonnegative quotient rather than rounding to
nearest — and equals 0 when there are no pauses. -/
theorem c3_long_pause_pct (pauses : List ℕ) :
    long_pause_pct pauses =
      ⌊((100 * pauses.countP (fun p => decide (700 < p)) : ℕ) : ℚ) /
        ((max 1 pauses.length : ℕ) : ℚ)⌋₊ ∧
    (pauses = [] → long_pause_pct pauses = 0) := by
  constructor
  · rw [Nat.floor_div_eq_div]
    rfl
  · intro h
    subst h
    rfl

/-- C3 (witness): the amended claim instantiated at the empty pause list. -/
theorem c3_witness : long_pause_pct [] = 0 :=
  (c3_long_pause_pct []).2 rfl

/-! ### Claim C4: adaptive threshold classification -/

/-- C4: for every nonempty frame-energy sequence and scale factor, the
classifier labels frame `i` as speech exactly when its energy is strictly
greater than the single clip-global threshold
`max(1e-12, median(energies) * scale)`; in particular a frame whose
energy equals the threshold is classified silence. -/
theorem c4_threshold (energies : List ℚ) (scale : ℚ) (_hne : energies ≠ [])
    (i : ℕ) (hi : i < energies.length) :
    ((classify energies scale).getD i false = true ↔
      max epsFloor (median energies * scale) < energies.getD i 0) ∧
    (energies.getD i 0 = max epsFloor (median energies * scale) →
      (classify energies scale).getD i false = false) := by
  have hm : (classify energies scale).getD i false =
      decide (max epsFloor (median energies * scale) < energies.getD i 0) := by
    simp [classify, List.getD_eq_getElem?_getD, List.getElem?_map,
      List.getElem?_eq_getElem hi]
  constructor
  · rw [hm]
    simp
  · intro he
    rw [hm, he]
    simp

/-- C4 (witness): the classification criterion instantiated at the energy
list `[1, 2, 3]`, the default scale and frame index 1. -/
theorem c4_witness :
    (classify [1, 2, 3] (3 / 5)).getD 1 false = true ↔
      max epsFloor (median [1, 2, 3] * (3 / 5)) < ([1, 2, 3] : List ℚ).getD 1 0 :=
  (c4_threshold [1, 2, 3] (3 / 5) (by decide) 1 (by decide)).1

/-! ### Claim C5: clip shorter than one frame -/

/-- C5: every nonempty sample sequence shorter than one frame analyses
without error to the zeroed result: no frames, no pauses, and zero for
duration, pause density, mean pause and long-pause percentage. -/
theorem c5_short_clip (energy : List ℚ → ℚ) (y : List ℚ) (sr : ℤ)
    (h1 : y ≠ []) (h2 : y.length < frame_len sr 30) :
    analyze energy (some y) sr = .ok emptyResult ∧
    rms_flags energy y sr 30 (3 / 5) = [] ∧
    collectPauses 30 (rms_flags energy y sr 30 (3 / 5)) = [] ∧
    emptyResult.duration_s = 0 ∧
    emptyResult.pause_density_per_min = 0 ∧
    emptyResult.mean_pause_ms = 0 ∧
    emptyResult.long_pause_pct = 0 := by
  have hz : y.length / frame_len sr 30 = 0 := Nat.div_eq_of_lt h2
  have hflags : rms_flags energy y sr 30 (3 / 5) = [] :=
    rms_flags_eq_nil energy y sr 30 (3 / 5) hz
  have hlen : y.length ≠ 0 := fun h => h1 (List.length_eq_zero.mp h)
  refine ⟨analyze_short energy y sr hlen h2, hflags, ?_, rfl, rfl, rfl, rfl⟩
  rw [hflags]
  rfl

/-- C5 (witness): one sample at 16 kHz (shorter than one 30 ms frame)
analyses to the zeroed result. -/
theorem c5_witness :
    analyze (fun _ => 1) (some [1]) 16000 = .ok emptyResult :=
  (c5_short_clip (fun _ => 1) [1] 16000 (by decide) (by decide)).1

/-! ### Claim C6: the validation error -/

/-- C6: the analysis fails (with the single client-input error) exactly
when the decoded input is null or empty; the check depends only on the
input samples — not on the sample rate or the energy function, i.e. it
happens before segmentation — and no other input produces an error. -/
theorem c6_validation (energy : List ℚ → ℚ) (input : Option (List ℚ)) (sr : ℤ) :
    (∃ msg, analyze energy input sr = .error msg) ↔
      (input = none ∨ input = some []) := by
  cases input with
  | none => simp [analyze]
  | some y =>
    by_cases hy : y.length = 0
    · have hy' : y = [] := List.length_eq_zero.mp hy
      subst hy'
      simp [analyze]
    · have hne : y ≠ [] := fun h => hy (by simp [h])
      simp [analyze, hy, hne]

/-! ### Claim C7: pauses cover at most the whole clip -/

/-- C7: for every label sequence the sum of the emitted pause durations is
at most `frame_count * frame_ms`. -/
theorem c7_pause_budget (frame_ms : ℕ) (flags : List Bool) :
    (collectPauses frame_ms flags).sum ≤ flags.length * frame_ms := by
  rw [collectPauses_falseRuns, sum_map_mul_const]
  exact Nat.mul_le_mul_right frame_ms (falseRuns_sum_le flags)

/-! ### Claim C8: long-pause percentage range -/

/-- The aggregated percentage is bounded by 100 for every pause list. -/
theorem long_pause_pct_le_100 (pauses : List ℕ) : long_pause_pct pauses ≤ 100 := by
  have hk : pauses.countP (fun p => decide (700 < p)) ≤ max 1 pauses.length :=
    le_trans (List.countP_le_length _) (le_max_right 1 pauses.length)
  have h1 : 100 * pauses.countP (fun p => decide (700 < p)) ≤ 100 * max 1 pauses.length :=
    Nat.mul_le_mul_left 100 hk
  have hpos : 0 < max 1 pauses.length := lt_of_lt_of_le Nat.zero_lt_one (le_max_left _ _)
  calc long_pause_pct pauses
      ≤ 100 * max 1 pauses.length / max 1 pauses.length := Nat.div_le_div_right h1
    _ = 100 := Nat.mul_div_cancel 100 hpos

/-- C8: every successful analysis reports an integer `long_pause_pct`
between 0 and 100 (the lower bound holds by the ℕ codomain). -/
theorem c8_long_pause_pct_range (energy : List ℚ → ℚ) (input : Option (List ℚ))
    (sr : ℤ) (r : AnalysisResult) (h : analyze energy input sr = .ok r) :
    r.long_pause_pct ≤ 100 := by
  cases input with
  | none => simp [analyze] at h
  | some y =>
    by_cases hy : y.length = 0
    · simp [analyze, hy] at h
    · simp only [analyze, hy, if_false, Except.ok.injEq] at h
      subst h
      exact long_pause_pct_le_100 _

/-- C8 (witness): the bound instantiated at a concrete one-sample clip. -/
theorem c8_witness : emptyResult.long_pause_pct ≤ 100 :=
  c8_long_pause_pct_range (fun _ => 1) (some [1]) 16000 emptyResult analyze_single_sample

/-! ### Claim C9: mean pause duration -/

/-- C9 (counterexample): for the pause list `[30, 30, 30, 60]` the
arithmetic average is `150 / 4 = 37.5`, but the code reports
`int(37.5) = 37`, which is not the average. -/
theorem c9_counterexample :
    ¬ ((mean_pause [30, 30, 30, 60] : ℚ) =
        (([30, 30, 30, 60] : List ℕ).sum : ℚ) / (([30, 30, 30, 60] : List ℕ).length : ℚ)) := by
  have h1 : mean_pause [30, 30, 30, 60] = 37 := by decide
  have h2 : ([30, 30, 30, 60] : List ℕ).sum = 150 := by decide
  have h3 : ([30, 30, 30, 60] : List ℕ).length = 4 := by decide
  rw [h1, h2, h3]
  norm_num

/-- C9 (amended): the reported `mean_pause_ms` is the floor (truncation,
the durations being nonnegative) of the arithmetic average of the pause
durations when at least one pause exists, and 0 otherwise; the reported
value is an integer. -/
theorem c9_mean_pause (pauses : List ℕ) :
    (pauses ≠ [] →
      mean_pause pauses = ⌊(pauses.sum : ℚ) / (pauses.length : ℚ)⌋₊) ∧
    (pauses = [] → mean_pause pauses = 0) := by
  constructor
  · intro h
    rw [Nat.floor_div_eq_div]
    simp [mean_pause, h]
  · intro h
    subst h
    rfl

/-- C9 (witness): the amended claim instantiated at the pause lists
`[30, 60]` and `[]`. -/
theorem c9_witness :
    mean_pause [30, 60] = ⌊(([30, 60] : List ℕ).sum : ℚ) / (([30, 60] : List ℕ).length : ℚ)⌋₊ :=
  (c9_mean_pause [30, 60]).1 (by decide)

/-! ### Claim C10: totality of the frame classifier -/

/-- C10: the frame classifier is total for every integer sample rate and
frame duration: the frame length is clamped to at least one sample, the
label count is always the well-defined `len(y) // frame_len` (so no
division by zero or empty-frame RMS can occur), and a non-positive
sample rate with a positive frame duration silently degrades to
one-sample frames instead of failing. -/
theorem c10_totality (energy : List ℚ → ℚ) (y : List ℚ) (sr frame_ms : ℤ)
    (scale : ℚ) :
    1 ≤ frame_len sr frame_ms ∧
    (rms_flags energy y sr frame_ms scale).length = y.length / frame_len sr frame_ms ∧
    (sr ≤ 0 → 0 < frame_ms → frame_len sr frame_ms = 1) := by
  refine ⟨frame_len_pos sr frame_ms, rms_flags_length energy y sr frame_ms scale, ?_⟩
  intro hsr hfm
  have hprod : sr * frame_ms ≤ 0 := mul_nonpos_iff.mpr (Or.inr ⟨hsr, hfm.le⟩)
  have htd : Int.tdiv (sr * frame_ms) 1000 ≤ 0 := by
    have hneg : (0 : ℤ) ≤ -(sr * frame_ms) := by omega
    have h1 : (0 : ℤ) ≤ Int.tdiv (-(sr * frame_ms)) 1000 :=
      Int.tdiv_nonneg hneg (by norm_num)
    have h2 : Int.tdiv (-(sr * frame_ms)) 1000 = -(Int.tdiv (sr * frame_ms) 1000) :=
      Int.neg_tdiv _ _
    omega
  have hmax : max 1 (Int.tdiv (sr * frame_ms) 1000) = 1 := max_eq_left (by omega)
  rw [frame_len, hmax]
  rfl

/-- C10 (witness): a non-positive (invalid) sample rate with the default
30 ms frame duration degrades to one-sample frames. -/
theorem c10_witness : frame_len (-8000) 30 = 1 :=
  (c10_totality (fun _ => 1) [] (-8000) 30 (3 / 5)).2.2 (by norm_num) (by norm_num)

end Speech
